import Mathlib

/-!
Shallow embedding of the profile record reconciliation engine
(`profileRecordUtils.ts`): the Record data model, the Options Builder
(`profileRecordsToRecordOptions`), the Form Normalizer
(`profileEditorFormToProfileRecords` / `profileRecordsToProfileEditorForm`),
the Classifier (`profileToProfileRecords` with `sortProfileRecords`), and the
Diff Engine (`getProfileRecordsDiff`).
-/

namespace ENS

/-- Model of the JavaScript built-in `String.prototype.trim`: drop leading and
trailing whitespace characters. -/
def jsTrim (s : String) : String :=
  ⟨(((s.data.dropWhile Char.isWhitespace).reverse.dropWhile Char.isWhitespace).reverse)⟩

/-- Model of the JavaScript built-in `String.prototype.toLowerCase`. -/
def jsToLower (s : String) : String :=
  ⟨s.data.map Char.toLower⟩

/-- One hexadecimal digit, lowercase, as produced by the hex encoder. -/
def hexDigit (n : Nat) : Char :=
  if n < 10 then Char.ofNat (48 + n) else Char.ofNat (87 + n)

/-- Two lowercase hex digits for one byte value. -/
def byteHex (b : Nat) : String :=
  ⟨[hexDigit (b / 16 % 16), hexDigit (b % 16)]⟩

/-- UTF-8 bytes of one code point (as natural numbers below 256). -/
def utf8Bytes (c : Char) : List Nat :=
  let n := c.toNat
  if n < 128 then [n]
  else if n < 2048 then [192 + n / 64, 128 + n % 64]
  else if n < 65536 then [224 + n / 4096, 128 + n / 64 % 64, 128 + n % 64]
  else [240 + n / 262144, 128 + n / 4096 % 64, 128 + n / 64 % 64, 128 + n % 64]

/-- Model of `stringToHex` from viem: `0x` followed by the lowercase hex of the
UTF-8 bytes of the string. -/
def stringToHex (s : String) : String :=
  "0x" ++ String.join ((s.data.map utf8Bytes).map (fun bs => String.join (bs.map byteHex)))

/-- The closed set of record groups (`ProfileRecordGroup`). -/
inductive ProfileRecordGroup where
  | media
  | general
  | social
  | address
  | website
  | other
  | custom
deriving DecidableEq, Repr

/-- The canonical Record entity (`ProfileRecord`). The `type` tag is kept as a
string since the dispatch in the source is on string tags; `value` is optional
as in the source type. -/
structure ProfileRecord where
  key : String
  type : String
  group : ProfileRecordGroup
  value : Option String
deriving DecidableEq, Repr

/-- One `{key, value}` entry of the text bucket of the update payload. -/
structure TextItem where
  key : String
  value : String
deriving DecidableEq, Repr

/-- One `{coin, value}` entry of the coin bucket of the update payload. -/
structure CoinItem where
  coin : String
  value : String
deriving DecidableEq, Repr

/-- The `{contentType, encodedData}` binary-interface descriptor of the update
payload. -/
structure AbiEntry where
  contentType : Nat
  encodedData : String
deriving DecidableEq, Repr

/-- The update payload (`RecordOptions`): four optional buckets plus the
`clearRecords` flag. A bucket that was never touched is `none`, matching the
absent object fields of the initial accumulator in the source. -/
structure RecordOptions where
  clearRecords : Bool
  texts : Option (List TextItem)
  coins : Option (List CoinItem)
  contentHash : Option String
  abi : Option AbiEntry
deriving DecidableEq, Repr

/-- One step of the reducer inside `profileRecordsToRecordOptions`, translated
clause by clause from the source: empty keys are skipped, `key = avatar` is
special-cased for any type, then the four type tags dispatch, and any other tag
leaves the accumulator unchanged. -/
def recordOptionsStep (options : RecordOptions) (record : ProfileRecord) : RecordOptions :=
  if record.key = "" then options
  else
    let key := record.key
    let value := record.value.getD ""
    let recordItemKey := jsTrim key
    let recordItemValue := jsTrim value
    if record.key = "avatar" then
      let currentAvatarValue :=
        match (options.texts.getD []).find? (fun r => r.key = "avatar") with
        | some t => t.value
        | none => ""
      let defaultAvatarValue :=
        if currentAvatarValue ≠ "" ∧ recordItemValue ≠ "" ∧ record.group = ProfileRecordGroup.media
        then recordItemValue
        else currentAvatarValue
      let newAvatarValue :=
        if defaultAvatarValue ≠ "" then defaultAvatarValue
        else if currentAvatarValue ≠ "" then currentAvatarValue
        else recordItemValue
      { options with
        texts := some ((options.texts.getD []).filter (fun r => r.key ≠ "avatar") ++
          [⟨"avatar", newAvatarValue⟩]) }
    else if record.type = "text" then
      { options with
        texts := some ((options.texts.getD []).filter (fun r => r.key ≠ recordItemKey) ++
          [⟨recordItemKey, recordItemValue⟩]) }
    else if record.type = "addr" then
      { options with
        coins := some ((options.coins.getD []).filter (fun r => r.coin ≠ recordItemKey) ++
          [⟨key, value⟩]) }
    else if record.type = "contenthash" then
      { options with contentHash := some recordItemValue }
    else if record.type = "abi" then
      { options with abi := some ⟨1, stringToHex recordItemValue⟩ }
    else options

/-- The Options Builder `profileRecordsToRecordOptions`: a left fold of
`recordOptionsStep` starting from the accumulator that only carries the
`clearRecords` flag. -/
def profileRecordsToRecordOptions (profileRecords : List ProfileRecord := [])
    (clearRecords : Bool := false) : RecordOptions :=
  profileRecords.foldl recordOptionsStep
    { clearRecords := clearRecords, texts := none, coins := none,
      contentHash := none, abi := none }

example :
    (profileRecordsToRecordOptions
      [⟨"a", "text", ProfileRecordGroup.custom, some " 1 "⟩] false).texts =
    some [⟨"a", "1"⟩] := by decide

example :
    (profileRecordsToRecordOptions
      [⟨" e", "addr", ProfileRecordGroup.address, some "v1"⟩,
       ⟨" e", "addr", ProfileRecordGroup.address, some "v2"⟩] false).coins =
    some [⟨" e", "v1"⟩, ⟨" e", "v2"⟩] := by decide

/-- The edit form shape (`ProfileEditorForm`): avatar lifted out of the record
list. -/
structure ProfileEditorForm where
  avatar : String
  records : List ProfileRecord
deriving DecidableEq, Repr

/-- `profileEditorFormToProfileRecords`: the records of the form followed by a
synthesized avatar record when the avatar field is truthy (non-empty). -/
def profileEditorFormToProfileRecords (data : ProfileEditorForm) : List ProfileRecord :=
  data.records ++
    (if data.avatar = "" then []
     else [⟨"avatar", "text", ProfileRecordGroup.media, some data.avatar⟩])

/-- One step of the reducer inside `profileRecordsToProfileEditorForm`: a record
with key avatar and group media overwrites the avatar field; every other record
is appended with its value defaulted to the empty string. -/
def editorFormStep (result : ProfileEditorForm) (record : ProfileRecord) : ProfileEditorForm :=
  if record.key = "avatar" ∧ record.group = ProfileRecordGroup.media then
    { result with avatar := record.value.getD "" }
  else
    { result with records := result.records ++ [{ record with value := some (record.value.getD "") }] }

/-- `profileRecordsToProfileEditorForm`: a left fold of `editorFormStep`
starting from the empty form. -/
def profileRecordsToProfileEditorForm (records : List ProfileRecord) : ProfileEditorForm :=
  records.foldl editorFormStep ⟨"", []⟩

/-- Step 1 of the Diff Engine: the `updatedAndNewRecords` list of
`getProfileRecordsDiff`, translated from the source map-then-compact. -/
def updatedAndNewRecords (currentRecords previousRecords : List ProfileRecord) :
    List ProfileRecord :=
  (currentRecords.map (fun currentRecord =>
    let identicalRecord := previousRecords.find? (fun previousRecord =>
      previousRecord.key = currentRecord.key ∧ previousRecord.group = currentRecord.group)
    if currentRecord.value.getD "" = "" then none
    else
      match identicalRecord with
      | none => some currentRecord
      | some identical =>
        if identical.value ≠ currentRecord.value then some currentRecord else none)).filterMap id

/-- The Diff Engine `getProfileRecordsDiff`: Step 1 changes followed by Step 2
deletions; a previous website record is kept for deletion only when no current
record has the website group, any other previous record when no current record
matches its key and group; deletions carry the empty string as value. -/
def getProfileRecordsDiff (currentRecords : List ProfileRecord)
    (previousRecords : List ProfileRecord := []) : List ProfileRecord :=
  updatedAndNewRecords currentRecords previousRecords ++
    (previousRecords.filter (fun previousRecord =>
      if previousRecord.group = ProfileRecordGroup.website then
        (currentRecords.findIdx? (fun c => c.group = ProfileRecordGroup.website)).isNone
      else
        (currentRecords.findIdx? (fun c =>
          c.key = previousRecord.key ∧ c.group = previousRecord.group)).isNone)).map
      (fun r => { r with value := some "" })

example :
    getProfileRecordsDiff
      [⟨"ipns", "contenthash", ProfileRecordGroup.website, some "h2"⟩]
      [⟨"ipfs", "contenthash", ProfileRecordGroup.website, some "h1"⟩] =
    [⟨"ipns", "contenthash", ProfileRecordGroup.website, some "h2"⟩] := by decide

example :
    getProfileRecordsDiff [] [⟨"a", "text", ProfileRecordGroup.general, some "1"⟩] =
    [⟨"a", "text", ProfileRecordGroup.general, some ""⟩] := by decide

/-- One text entry of the source profile. -/
structure ProfileTextEntry where
  key : String
  value : Option String
deriving DecidableEq, Repr

/-- One coin entry of the source profile. -/
structure ProfileCoinEntry where
  name : String
  value : Option String
deriving DecidableEq, Repr

/-- The `abi` wrapper of the source profile: the inner descriptor is kept
opaque as a string identity, present exactly when the object is truthy. -/
structure ProfileAbiWrap where
  abi : Option String
deriving DecidableEq, Repr

/-- The flat stored profile consumed by the Classifier. -/
structure Profile where
  texts : Option (List ProfileTextEntry)
  coins : Option (List ProfileCoinEntry)
  contentHash : Option String
  abi : Option ProfileAbiWrap
deriving DecidableEq, Repr

/-- Modelled from the spec: the external collaborators and the static tables
of the repository that are not part of the given sources — the two key
classification sets (`supportedGeneralRecordKeys`, `supportedSocialRecordKeys`),
the static sort-priority table (`sortValues`), the content-hash decode chain
(`contentHashToString`, `getProtocolType`, `getInternalCodec`), and the JSON
serializer used for the abi descriptor. They are passed explicitly so the
Classifier stays a pure function of its inputs. -/
structure Externals where
  supportedGeneralRecordKeys : List String
  supportedAccounts : List String
  sortValues : ProfileRecordGroup → String → Option Nat
  contentHashToString : Option String → String
  getProtocolType : String → Option String
  getInternalCodec : String → Option String
  jsonStringify : String → String

/-- The per-group fallback ranks (`unknownGroupValue` in `sortProfileRecords`). -/
def unknownGroupValue : ProfileRecordGroup → Nat
  | ProfileRecordGroup.media => 1
  | ProfileRecordGroup.general => 199
  | ProfileRecordGroup.social => 299
  | ProfileRecordGroup.address => 399
  | ProfileRecordGroup.website => 499
  | ProfileRecordGroup.other => 599
  | ProfileRecordGroup.custom => 999

/-- The sort rank of one record: the priority table consulted at the group and
the lowercased key, falling back to the per-group default when the table has no
entry (or a zero entry, which is falsy in the source lookup). -/
def recordRankValue (e : Externals) (r : ProfileRecord) : Nat :=
  match e.sortValues r.group (jsToLower r.key) with
  | some v => if v = 0 then unknownGroupValue r.group else v
  | none => unknownGroupValue r.group

/-- The comparator `sortProfileRecords`: difference of the two ranks. -/
def sortProfileRecords (e : Externals) (recordA recordB : ProfileRecord) : Int :=
  (recordRankValue e recordA : Int) - (recordRankValue e recordB : Int)

/-- The ordering induced by the comparator, as consumed by a stable sort: a
record precedes another when the comparator is nonpositive. -/
def sortLE (e : Externals) (a b : ProfileRecord) : Prop :=
  sortProfileRecords e a b ≤ 0

instance (e : Externals) : DecidableRel (sortLE e) :=
  fun a b => inferInstanceAs (Decidable (_ ≤ _))

theorem sortLE_iff (e : Externals) (a b : ProfileRecord) :
    sortLE e a b ↔ recordRankValue e a ≤ recordRankValue e b := by
  unfold sortLE sortProfileRecords
  omega

instance (e : Externals) : IsTotal ProfileRecord (sortLE e) :=
  ⟨fun a b => by
    rw [sortLE_iff, sortLE_iff]
    exact Nat.le_total _ _⟩

instance (e : Externals) : IsTrans ProfileRecord (sortLE e) :=
  ⟨fun a b c hab hbc => by
    rw [sortLE_iff] at *
    exact Nat.le_trans hab hbc⟩

/-- The text records produced by the Classifier: the avatar key forced into the
media group, other keys classified by membership in the general and social key
sets, falling back to custom. -/
def profileTextRecords (e : Externals) (records : Profile) : List ProfileRecord :=
  (records.texts.getD []).map (fun t =>
    if t.key = "avatar" then
      ⟨t.key, "text", ProfileRecordGroup.media, t.value⟩
    else
      let group :=
        if e.supportedGeneralRecordKeys.contains t.key then ProfileRecordGroup.general
        else if e.supportedAccounts.contains t.key then ProfileRecordGroup.social
        else ProfileRecordGroup.custom
      ⟨t.key, "text", group, t.value⟩)

/-- The address records produced by the Classifier. -/
def profileAddressRecords (records : Profile) : List ProfileRecord :=
  (records.coins.getD []).map (fun c => ⟨c.name, "addr", ProfileRecordGroup.address, c.value⟩)

/-- The website record of the Classifier: at most one record, produced when the
decode chain yields a truthy protocol key. -/
def profileWebsiteRecords (e : Externals) (records : Profile) : List ProfileRecord :=
  let contentHashStr := e.contentHashToString records.contentHash
  let protocolKey := (e.getProtocolType contentHashStr).bind e.getInternalCodec
  match protocolKey with
  | some k =>
    if k = "" then []
    else [⟨k, "contenthash", ProfileRecordGroup.website, some contentHashStr⟩]
  | none => []

/-- The abi record of the Classifier: at most one record, produced when the
inner descriptor is present, with the serialized descriptor as value. -/
def profileAbiRecords (e : Externals) (records : Profile) : List ProfileRecord :=
  match records.abi with
  | some w =>
    match w.abi with
    | some d => [⟨"abi", "abi", ProfileRecordGroup.other, some (e.jsonStringify d)⟩]
    | none => []
  | none => []

/-- The unsorted concatenation built inside `profileToProfileRecords`. -/
def profileRecordsUnsorted (e : Externals) (profile : Option Profile) : List ProfileRecord :=
  let records := profile.getD ⟨none, none, none, none⟩
  profileTextRecords e records ++ profileAddressRecords records ++
    profileWebsiteRecords e records ++ profileAbiRecords e records

/-- The Classifier `profileToProfileRecords`: the four record families
concatenated and stably sorted by the comparator; the in-place stable sort of
the source is modelled by insertion sort, which is stable. -/
def profileToProfileRecords (e : Externals) (profile : Option Profile) : List ProfileRecord :=
  (profileRecordsUnsorted e profile).insertionSort (sortLE e)

/-! ### Helper lemmas -/

theorem filterMap_eq_filter_of {α : Type} (f : α → Option α) (p : α → Bool)
    (h : ∀ a, f a = if p a then some a else none) (l : List α) :
    l.filterMap f = l.filter p := by
  induction l with
  | nil => simp
  | cons a t ih =>
    simp only [List.filterMap_cons, List.filter_cons, h a]
    by_cases hp : p a = true
    · simp [hp, ih]
    · rw [Bool.not_eq_true] at hp
      simp [hp, ih]

theorem isNone_findIdx?_eq_all {α : Type} (p : α → Bool) (l : List α) :
    (List.findIdx? p l).isNone = l.all (fun a => !p a) := by
  rw [Bool.eq_iff_iff]
  simp only [Option.isNone_iff_eq_none, List.findIdx?_eq_none_iff, List.all_eq_true,
    Bool.not_eq_true']

/-- The membership test of Step 1 of the diff, as the claims state it: a
current record is a change exactly when its value is non-empty and either no
previous record matches its key and group or the matched value differs. -/
def changePred (previousRecords : List ProfileRecord) (c : ProfileRecord) : Bool :=
  !(c.value.getD "" == "") &&
    (previousRecords.find? (fun p => p.key = c.key ∧ p.group = c.group)).all
      (fun p => p.value ≠ c.value)

/-- The deletion test of Step 2 of the diff, as the claims state it: a previous
record is deleted when no current record matches its key and group, except that
a previous website record is deleted only when no current record at all has the
website group. -/
def deletionKeepPred (currentRecords : List ProfileRecord) (p : ProfileRecord) : Bool :=
  if p.group = ProfileRecordGroup.website then
    currentRecords.all (fun c => c.group ≠ ProfileRecordGroup.website)
  else
    currentRecords.all (fun c => ¬(c.key = p.key ∧ c.group = p.group))

theorem updatedAndNew_eq_filter (cur prev : List ProfileRecord) :
    updatedAndNewRecords cur prev = cur.filter (changePred prev) := by
  unfold updatedAndNewRecords
  rw [List.filterMap_map, Function.id_comp]
  apply filterMap_eq_filter_of
  intro c
  unfold changePred
  rcases hfind : prev.find? (fun p => p.key = c.key ∧ p.group = c.group) with _ | p <;>
    rw [hfind]
  · by_cases hv : c.value.getD "" = "" <;> simp [hv]
  · by_cases hv : c.value.getD "" = ""
    · simp [hv]
    · by_cases hval : p.value = c.value <;> simp [hv, hval]

theorem deletions_eq_filter (cur prev : List ProfileRecord) :
    prev.filter (fun previousRecord =>
      if previousRecord.group = ProfileRecordGroup.website then
        (cur.findIdx? (fun c => c.group = ProfileRecordGroup.website)).isNone
      else
        (cur.findIdx? (fun c =>
          c.key = previousRecord.key ∧ c.group = previousRecord.group)).isNone) =
    prev.filter (deletionKeepPred cur) := by
  apply List.filter_congr
  intro p _
  unfold deletionKeepPred
  by_cases hg : p.group = ProfileRecordGroup.website
  · rw [if_pos hg, if_pos hg, isNone_findIdx?_eq_all]
    simp [decide_not]
  · rw [if_neg hg, if_neg hg, isNone_findIdx?_eq_all]
    simp [decide_not]

/-! ### Claim C1 -/

/-- Claim C1 counterexample: with a previous ipfs website record and a current
ipns website record, the diff contains only the new ipns record; the deletion
of ipfs is not emitted, contrary to the claim, because a current record of the
website group exists. -/
theorem c1_counterexample :
    getProfileRecordsDiff
      [⟨"ipns", "contenthash", ProfileRecordGroup.website, some "h2"⟩]
      [⟨"ipfs", "contenthash", ProfileRecordGroup.website, some "h1"⟩] =
      [⟨"ipns", "contenthash", ProfileRecordGroup.website, some "h2"⟩] ∧
    (⟨"ipfs", "contenthash", ProfileRecordGroup.website, some ""⟩ : ProfileRecord) ∉
      getProfileRecordsDiff
        [⟨"ipns", "contenthash", ProfileRecordGroup.website, some "h2"⟩]
        [⟨"ipfs", "contenthash", ProfileRecordGroup.website, some "h1"⟩] := by
  constructor
  · decide
  · decide

/-- Claim C1, amended: for the given current ipns and previous ipfs website
records, the diff consists of the new ipns record alone; the ipfs deletion is
suppressed because a current record with the website group exists, and a
website deletion is emitted only when no current record has the website
group. -/
theorem c1_website_change_emits_only_new_record :
    getProfileRecordsDiff
      [⟨"ipns", "contenthash", ProfileRecordGroup.website, some "h2"⟩]
      [⟨"ipfs", "contenthash", ProfileRecordGroup.website, some "h1"⟩] =
      [⟨"ipns", "contenthash", ProfileRecordGroup.website, some "h2"⟩] := by
  decide

/-! ### Claim C2 -/

/-- Claim C2: the diff is the change list followed by exactly those previous
records with no current record matching their key and group — except that a
previous website record is kept for deletion only when no current record at all
has the website group — each with value forced to the empty string; both parts
preserve the relative order of their source lists, being a filter of the
current list and a filter of the previous list respectively. -/
theorem c2_diff_is_changes_then_deletions (cur prev : List ProfileRecord) :
    getProfileRecordsDiff cur prev =
      cur.filter (changePred prev) ++
        (prev.filter (deletionKeepPred cur)).map (fun r => { r with value := some "" }) := by
  unfold getProfileRecordsDiff
  rw [updatedAndNew_eq_filter, deletions_eq_filter]

/-! ### Claim C3 -/

/-- Claim C3: a current record contributes to the change list exactly when its
value is non-empty and either no previous record has the same key and group or
the matched previous value differs (the change list is that filter of the
current list); and a current record with empty value and no previous
counterpart produces no output at all in the diff. -/
theorem c3_change_membership_and_empty_noop :
    (∀ cur prev : List ProfileRecord,
      updatedAndNewRecords cur prev = cur.filter (changePred prev)) ∧
    (∀ (cur prev : List ProfileRecord) (c : ProfileRecord), c ∈ cur →
      c.value.getD "" = "" →
      prev.find? (fun p => p.key = c.key ∧ p.group = c.group) = none →
      c ∉ getProfileRecordsDiff cur prev) := by
  constructor
  · exact updatedAndNew_eq_filter
  · intro cur prev c hc hv _ hmem
    rw [c2_diff_is_changes_then_deletions, List.mem_append] at hmem
    rcases hmem with hmem | hmem
    · have := List.of_mem_filter hmem
      simp [changePred, hv] at this
    · rw [List.mem_map] at hmem
      obtain ⟨r, hr, hrc⟩ := hmem
      have hkeep := List.of_mem_filter hr
      have hrprev := List.mem_of_mem_filter hr
      subst hrc
      unfold deletionKeepPred at hkeep
      by_cases hg : r.group = ProfileRecordGroup.website
      · rw [if_pos hg] at hkeep
        rw [List.all_eq_true] at hkeep
        have h2 := hkeep _ hc
        simp only [decide_eq_true_eq] at h2
        exact h2 hg
      · rw [if_neg hg] at hkeep
        rw [List.all_eq_true] at hkeep
        have h2 := hkeep _ hc
        simp at h2

/-- Claim C3 witness: a concrete current record with empty value and no
previous counterpart is absent from the diff. -/
theorem c3_witness :
    (⟨"a", "text", ProfileRecordGroup.general, some ""⟩ : ProfileRecord) ∉
      getProfileRecordsDiff [⟨"a", "text", ProfileRecordGroup.general, some ""⟩] [] :=
  c3_change_membership_and_empty_noop.2 _ _ _ (by decide) (by decide) (by decide)

/-! ### Claim C9 -/

/-- Claim C9: the Options Builder step is total and forgiving — a record with
empty key leaves the accumulator unchanged, and a record whose type is none of
text, addr, contenthash, abi and whose key is not avatar likewise leaves the
accumulator unchanged. -/
theorem c9_empty_key_and_unknown_type_are_noops :
    (∀ (options : RecordOptions) (record : ProfileRecord), record.key = "" →
      recordOptionsStep options record = options) ∧
    (∀ (options : RecordOptions) (record : ProfileRecord), record.key ≠ "avatar" →
      record.type ≠ "text" → record.type ≠ "addr" → record.type ≠ "contenthash" →
      record.type ≠ "abi" → recordOptionsStep options record = options) := by
  constructor
  · intro o r h
    unfold recordOptionsStep
    rw [if_pos h]
  · intro o r h1 h2 h3 h4 h5
    simp [recordOptionsStep, h1, h2, h3, h4, h5]

/-- Claim C9 witness: a concrete empty-key record and a concrete unknown-type
record each leave a concrete accumulator unchanged. -/
theorem c9_witness :
    recordOptionsStep (profileRecordsToRecordOptions [] true)
        ⟨"", "text", ProfileRecordGroup.custom, some "x"⟩ =
      profileRecordsToRecordOptions [] true ∧
    recordOptionsStep (profileRecordsToRecordOptions [] true)
        ⟨"k", "unknown", ProfileRecordGroup.custom, some "x"⟩ =
      profileRecordsToRecordOptions [] true :=
  ⟨c9_empty_key_and_unknown_type_are_noops.1 _ _ rfl,
   c9_empty_key_and_unknown_type_are_noops.2 _ _ (by decide) (by decide) (by decide)
     (by decide) (by decide)⟩

/-! ### Claim C10 -/

/-- Claim C10: trimming is asymmetric across buckets — a text record is stored
with key and value trimmed; an avatar record hitting a fresh accumulator is
stored with its value trimmed; the content-hash and abi branches store the
trimmed value (hex-encoded for abi); but an addr record is stored with the raw
key as the coin field and the raw untrimmed value. -/
theorem c10_trim_asymmetry :
    (∀ (o : RecordOptions) (r : ProfileRecord), r.key ≠ "" → r.key ≠ "avatar" →
      r.type = "text" →
      ((recordOptionsStep o r).texts.getD []).getLast? =
        some ⟨jsTrim r.key, jsTrim (r.value.getD "")⟩) ∧
    (∀ (o : RecordOptions) (r : ProfileRecord), r.key = "avatar" →
      (o.texts.getD []).find? (fun t => t.key = "avatar") = none →
      ((recordOptionsStep o r).texts.getD []).getLast? =
        some ⟨"avatar", jsTrim (r.value.getD "")⟩) ∧
    (∀ (o : RecordOptions) (r : ProfileRecord), r.key ≠ "" → r.key ≠ "avatar" →
      r.type = "addr" →
      ((recordOptionsStep o r).coins.getD []).getLast? = some ⟨r.key, r.value.getD ""⟩) ∧
    (∀ (o : RecordOptions) (r : ProfileRecord), r.key ≠ "" → r.key ≠ "avatar" →
      r.type = "contenthash" →
      (recordOptionsStep o r).contentHash = some (jsTrim (r.value.getD ""))) ∧
    (∀ (o : RecordOptions) (r : ProfileRecord), r.key ≠ "" → r.key ≠ "avatar" →
      r.type = "abi" →
      (recordOptionsStep o r).abi = some ⟨1, stringToHex (jsTrim (r.value.getD ""))⟩) := by
  refine ⟨?_, ?_, ?_, ?_, ?_⟩
  · intro o r h0 h1 ht
    simp [recordOptionsStep, h0, h1, ht]
  · intro o r h1 hfind
    have h0 : ¬(r.key = "") := by rw [h1]; decide
    unfold recordOptionsStep
    rw [if_neg h0, if_pos h1]
    simp only [hfind]
    simp
  · intro o r h0 h1 ht
    have ht' : r.type ≠ "text" := by rw [ht]; decide
    simp [recordOptionsStep, h0, h1, ht, ht']
  · intro o r h0 h1 ht
    have ht1 : r.type ≠ "text" := by rw [ht]; decide
    have ht2 : r.type ≠ "addr" := by rw [ht]; decide
    simp [recordOptionsStep, h0, h1, ht, ht1, ht2]
  · intro o r h0 h1 ht
    have ht1 : r.type ≠ "text" := by rw [ht]; decide
    have ht2 : r.type ≠ "addr" := by rw [ht]; decide
    have ht3 : r.type ≠ "contenthash" := by rw [ht]; decide
    simp [recordOptionsStep, h0, h1, ht, ht1, ht2, ht3]

/-- Claim C10 witness: concrete whitespace-laden records show text, avatar,
content-hash and abi values stored trimmed while a coin entry keeps the raw key
and value. -/
theorem c10_witness :
    ((recordOptionsStep (profileRecordsToRecordOptions [] false)
        ⟨" k ", "text", ProfileRecordGroup.custom, some " v "⟩).texts.getD []).getLast? =
      some ⟨"k", "v"⟩ ∧
    ((recordOptionsStep (profileRecordsToRecordOptions [] false)
        ⟨"avatar", "text", ProfileRecordGroup.media, some " a "⟩).texts.getD []).getLast? =
      some ⟨"avatar", "a"⟩ ∧
    ((recordOptionsStep (profileRecordsToRecordOptions [] false)
        ⟨" e ", "addr", ProfileRecordGroup.address, some " v "⟩).coins.getD []).getLast? =
      some ⟨" e ", " v "⟩ ∧
    (recordOptionsStep (profileRecordsToRecordOptions [] false)
        ⟨"ch", "contenthash", ProfileRecordGroup.website, some " h "⟩).contentHash =
      some "h" ∧
    (recordOptionsStep (profileRecordsToRecordOptions [] false)
        ⟨"abi", "abi", ProfileRecordGroup.other, some " [] "⟩).abi =
      some ⟨1, "0x5b5d"⟩ :=
  ⟨c10_trim_asymmetry.1 _ _ (by decide) (by decide) rfl,
   c10_trim_asymmetry.2.1 _ _ rfl (by decide),
   c10_trim_asymmetry.2.2.1 _ _ (by decide) (by decide) rfl,
   c10_trim_asymmetry.2.2.2.1 _ _ (by decide) (by decide) rfl,
   c10_trim_asymmetry.2.2.2.2 _ _ (by decide) (by decide) rfl⟩

/-! ### Last-wins upsert machinery shared by the text and coin buckets -/

/-- The filter-then-append upsert step of the bucket folds, keyed by a
projection. -/
def upsertBy {α : Type} (key : α → String) (acc : List α) (x : α) : List α :=
  acc.filter (fun y => key y ≠ key x) ++ [x]

/-- The entries of a list that are the last with their key, kept in order of
last occurrence. -/
def keepLastBy {α : Type} (key : α → String) : List α → List α
  | [] => []
  | x :: l =>
    if l.any (fun y => key y = key x) then keepLastBy key l else x :: keepLastBy key l

theorem keepLastBy_cons {α : Type} (key : α → String) (x : α) (l : List α) :
    keepLastBy key (x :: l) =
      if l.any (fun y => key y = key x) then keepLastBy key l else x :: keepLastBy key l := rfl

theorem keepLastBy_subset {α : Type} (key : α → String) (l : List α) :
    ∀ y ∈ keepLastBy key l, y ∈ l := by
  induction l with
  | nil => intro y hy; exact absurd hy (by simp [keepLastBy])
  | cons x t ih =>
    intro y hy
    unfold keepLastBy at hy
    by_cases hany : t.any (fun z => key z = key x) = true
    · rw [if_pos hany] at hy
      exact List.mem_cons_of_mem x (ih y hy)
    · rw [if_neg hany] at hy
      rcases List.mem_cons.mp hy with h | h
      · exact h ▸ List.mem_cons_self x t
      · exact List.mem_cons_of_mem x (ih y h)

theorem keepLastBy_pairwise {α : Type} (key : α → String) (l : List α) :
    (keepLastBy key l).Pairwise (fun a b => key a ≠ key b) := by
  induction l with
  | nil => exact List.Pairwise.nil
  | cons x t ih =>
    unfold keepLastBy
    by_cases hany : t.any (fun z => key z = key x) = true
    · rw [if_pos hany]
      exact ih
    · rw [if_neg hany]
      refine List.Pairwise.cons ?_ ih
      intro y hy
      have hyt := keepLastBy_subset key t y hy
      intro hxy
      apply hany
      rw [List.any_eq_true]
      exact ⟨y, hyt, by simp [hxy]⟩

theorem foldl_upsertBy {α : Type} (key : α → String) (l : List α) :
    ∀ acc : List α,
      List.foldl (upsertBy key) acc l =
        acc.filter (fun y => !(l.any (fun x => key x = key y))) ++ keepLastBy key l := by
  induction l with
  | nil =>
    intro acc
    simp [keepLastBy]
  | cons x t ih =>
    intro acc
    rw [List.foldl_cons, ih]
    show (upsertBy key acc x).filter _ ++ _ = _
    unfold upsertBy
    rw [List.filter_append, List.filter_filter]
    have hpt : ∀ y : α,
        ((!(t.any (fun z => key z = key y))) && decide (key y ≠ key x)) =
          !((x :: t).any (fun z => key z = key y)) := by
      intro y
      rw [List.any_cons, Bool.not_or]
      by_cases h : key x = key y
      · simp [h]
      · have h2 : ¬(key y = key x) := fun hh => h hh.symm
        simp [h, h2]
    rw [List.filter_congr (fun y _ => hpt y), List.append_assoc]
    congr 1
    rw [keepLastBy_cons]
    by_cases hany : t.any (fun z => key z = key x) = true
    · rw [if_pos hany, List.filter_cons, List.filter_nil, hany]
      simp
    · rw [if_neg hany]
      rw [Bool.not_eq_true] at hany
      rw [List.filter_cons, List.filter_nil, hany]
      simp

theorem filter_swap {α : Type} (p q : α → Bool) (l : List α) :
    (l.filter q).filter p = (l.filter p).filter q := by
  rw [List.filter_filter, List.filter_filter]
  exact List.filter_congr (fun x _ => Bool.and_comm _ _)

theorem filter_self_filter {α : Type} (p : α → Bool) (l : List α) :
    (l.filter p).filter p = l.filter p := by
  rw [List.filter_filter]
  exact List.filter_congr (fun x _ => Bool.and_self _)

theorem filter_avatar_singleton (v : String) :
    List.filter (fun t : TextItem => t.key ≠ "avatar") [⟨"avatar", v⟩] = [] := by
  rw [List.filter_cons, List.filter_nil]
  simp

/-! ### The text bucket as a keyed upsert fold (Claims C7, C8) -/

/-- The non-avatar entries of the text bucket. -/
def nonAvatarTexts (o : RecordOptions) : List TextItem :=
  (o.texts.getD []).filter (fun t => t.key ≠ "avatar")

/-- The text item a record inserts: trimmed key and trimmed value. -/
def toTextItem (r : ProfileRecord) : TextItem :=
  ⟨jsTrim r.key, jsTrim (r.value.getD "")⟩

/-- A record reaches the text branch and inserts a non-avatar entry exactly
when its key is non-empty and not avatar, its type is text, and its trimmed
key is not avatar. -/
def textInsertCond (r : ProfileRecord) : Prop :=
  r.key ≠ "" ∧ r.key ≠ "avatar" ∧ r.type = "text" ∧ jsTrim r.key ≠ "avatar"

instance : DecidablePred textInsertCond := fun r => by
  unfold textInsertCond
  infer_instance

/-- The sequence of non-avatar text items inserted by a record list. -/
def textUpserts (l : List ProfileRecord) : List TextItem :=
  (l.filter (fun r => textInsertCond r)).map toTextItem

theorem nonAvatarTexts_step_insert (o : RecordOptions) (r : ProfileRecord)
    (h : textInsertCond r) :
    nonAvatarTexts (recordOptionsStep o r) =
      upsertBy TextItem.key (nonAvatarTexts o) (toTextItem r) := by
  obtain ⟨h0, h1, ht, htrim⟩ := h
  unfold nonAvatarTexts upsertBy toTextItem
  simp only [recordOptionsStep, if_neg h0, if_neg h1, if_pos ht, Option.getD_some]
  rw [List.filter_append, filter_swap]
  congr 1
  rw [List.filter_cons, List.filter_nil]
  simp [htrim]

theorem nonAvatarTexts_step_skip (o : RecordOptions) (r : ProfileRecord)
    (h : ¬textInsertCond r) :
    nonAvatarTexts (recordOptionsStep o r) = nonAvatarTexts o := by
  unfold textInsertCond at h
  by_cases h0 : r.key = ""
  · unfold recordOptionsStep
    rw [if_pos h0]
  · by_cases h1 : r.key = "avatar"
    · unfold nonAvatarTexts
      simp only [recordOptionsStep, if_neg h0, if_pos h1, Option.getD_some]
      rw [List.filter_append, filter_self_filter, filter_avatar_singleton, List.append_nil]
    · by_cases ht : r.type = "text"
      · have htrim : jsTrim r.key = "avatar" := by
          by_contra hc
          exact h ⟨h0, h1, ht, hc⟩
        unfold nonAvatarTexts
        simp only [recordOptionsStep, if_neg h0, if_neg h1, if_pos ht, Option.getD_some, htrim]
        rw [List.filter_append, filter_self_filter, filter_avatar_singleton, List.append_nil]
      · have htexts : (recordOptionsStep o r).texts = o.texts := by
          by_cases h2 : r.type = "addr"
          · simp [recordOptionsStep, h0, h1, ht, h2]
          · by_cases h3 : r.type = "contenthash"
            · simp [recordOptionsStep, h0, h1, ht, h2, h3]
            · by_cases h4 : r.type = "abi"
              · simp [recordOptionsStep, h0, h1, ht, h2, h3, h4]
              · simp [recordOptionsStep, h0, h1, ht, h2, h3, h4]
        unfold nonAvatarTexts
        rw [htexts]

theorem nonAvatarTexts_foldl (l : List ProfileRecord) :
    ∀ o : RecordOptions,
      nonAvatarTexts (l.foldl recordOptionsStep o) =
        List.foldl (upsertBy TextItem.key) (nonAvatarTexts o) (textUpserts l) := by
  induction l with
  | nil => intro o; rfl
  | cons r t ih =>
    intro o
    rw [List.foldl_cons, ih]
    unfold textUpserts
    rw [List.filter_cons]
    by_cases hc : textInsertCond r
    · rw [if_pos (decide_eq_true hc), List.map_cons, List.foldl_cons,
        nonAvatarTexts_step_insert o r hc]
    · rw [if_neg (by simp [hc]), nonAvatarTexts_step_skip o r hc]

/-! ### Claim C8 -/

/-- Claim C8 counterexample: with two text records of raw key a and a third of
raw key with a leading space (which trims to a), the bucket entry for a carries
the third value, not the value of the last record sharing the raw key a. -/
theorem c8_counterexample :
    ((profileRecordsToRecordOptions
        [⟨"a", "text", ProfileRecordGroup.custom, some "1"⟩,
         ⟨"a", "text", ProfileRecordGroup.custom, some "2"⟩,
         ⟨" a", "text", ProfileRecordGroup.custom, some "3"⟩] false).texts.getD
        []).filter (fun t => t.key = "a") = [⟨"a", "3"⟩] ∧
    ([⟨"a", "3"⟩] : List TextItem) ≠ [⟨"a", "2"⟩] := by
  constructor
  · decide
  · decide

/-- Claim C8, amended: upserting in the text bucket is keyed by the trimmed
key — the non-avatar text entries are exactly the last occurrences per trimmed
key among the text-branch records, in order of last occurrence, each carrying
the trimmed value of its record; in particular several text records whose
trimmed keys coincide yield that key exactly once, with the value of the last
such record. -/
theorem c8_text_upsert_last_wins (l : List ProfileRecord) (b : Bool) :
    ((profileRecordsToRecordOptions l b).texts.getD []).filter (fun t => t.key ≠ "avatar") =
      keepLastBy TextItem.key (textUpserts l) ∧
    (keepLastBy TextItem.key (textUpserts l)).Pairwise (fun t u => t.key ≠ u.key) := by
  constructor
  · show nonAvatarTexts _ = _
    unfold profileRecordsToRecordOptions
    rw [nonAvatarTexts_foldl]
    have hinit : nonAvatarTexts
        { clearRecords := b, texts := none, coins := none,
          contentHash := none, abi := none } = [] := rfl
    rw [hinit, foldl_upsertBy, List.filter_nil, List.nil_append]
  · exact keepLastBy_pairwise _ _

/-! ### The coin bucket as a keyed upsert fold (Claim C4) -/

/-- The coin item an addr record inserts: raw key as coin, raw value. -/
def toCoinItem (r : ProfileRecord) : CoinItem :=
  ⟨r.key, r.value.getD ""⟩

/-- A record reaches the addr branch exactly when its key is non-empty and not
avatar and its type is addr. -/
def addrInsertCond (r : ProfileRecord) : Prop :=
  r.key ≠ "" ∧ r.key ≠ "avatar" ∧ r.type = "addr"

instance : DecidablePred addrInsertCond := fun r => by
  unfold addrInsertCond
  infer_instance

/-- The sequence of coin items inserted by a record list. -/
def coinUpserts (l : List ProfileRecord) : List CoinItem :=
  (l.filter (fun r => addrInsertCond r)).map toCoinItem

theorem coins_step_insert (o : RecordOptions) (r : ProfileRecord)
    (h : addrInsertCond r) :
    (recordOptionsStep o r).coins.getD [] =
      (o.coins.getD []).filter (fun y => y.coin ≠ jsTrim r.key) ++ [toCoinItem r] := by
  obtain ⟨h0, h1, ht⟩ := h
  have ht1 : r.type ≠ "text" := by rw [ht]; decide
  simp only [recordOptionsStep, if_neg h0, if_neg h1, if_neg ht1, if_pos ht, Option.getD_some]
  rfl

theorem coins_step_skip (o : RecordOptions) (r : ProfileRecord)
    (h : ¬addrInsertCond r) :
    (recordOptionsStep o r).coins = o.coins := by
  unfold addrInsertCond at h
  by_cases h0 : r.key = ""
  · unfold recordOptionsStep
    rw [if_pos h0]
  · by_cases h1 : r.key = "avatar"
    · simp [recordOptionsStep, h0, h1]
    · have ht : r.type ≠ "addr" := fun hc => h ⟨h0, h1, hc⟩
      by_cases h2 : r.type = "text"
      · simp [recordOptionsStep, h0, h1, h2]
      · by_cases h3 : r.type = "contenthash"
        · simp [recordOptionsStep, h0, h1, h2, ht, h3]
        · by_cases h4 : r.type = "abi"
          · simp [recordOptionsStep, h0, h1, h2, ht, h3, h4]
          · simp [recordOptionsStep, h0, h1, h2, ht, h3, h4]

theorem coins_foldl (l : List ProfileRecord)
    (htrim : ∀ r ∈ l, r.type = "addr" → jsTrim r.key = r.key) :
    ∀ o : RecordOptions,
      (l.foldl recordOptionsStep o).coins.getD [] =
        List.foldl (upsertBy CoinItem.coin) (o.coins.getD []) (coinUpserts l) := by
  induction l with
  | nil => intro o; rfl
  | cons r t ih =>
    intro o
    have htr := fun r hr => htrim r (List.mem_cons_of_mem _ hr)
    rw [List.foldl_cons]
    rw [ih htr]
    unfold coinUpserts
    rw [List.filter_cons]
    by_cases hc : addrInsertCond r
    · rw [if_pos (decide_eq_true hc), List.map_cons, List.foldl_cons]
      congr 1
      rw [coins_step_insert o r hc]
      unfold upsertBy
      congr 1
      apply List.filter_congr
      intro y _
      rw [htrim r (List.mem_cons_self r t) hc.2.2]
      rfl
    · rw [if_neg (by simp [hc])]
      congr 1
      rw [coins_step_skip o r hc]

/-! ### Claim C4 -/

/-- Claim C4 counterexample: two addr records with the same whitespace-laden
key produce two coin entries with the same coin field, because the upsert
filter matches the trimmed key against raw stored coins; so the coin bucket is
not limited to one entry per key. -/
theorem c4_counterexample :
    (profileRecordsToRecordOptions
      [⟨" e", "addr", ProfileRecordGroup.address, some "v1"⟩,
       ⟨" e", "addr", ProfileRecordGroup.address, some "v2"⟩] false).coins =
      some [⟨" e", "v1"⟩, ⟨" e", "v2"⟩] ∧
    (((profileRecordsToRecordOptions
      [⟨" e", "addr", ProfileRecordGroup.address, some "v1"⟩,
       ⟨" e", "addr", ProfileRecordGroup.address, some "v2"⟩] false).coins.getD
      []).filter (fun y => y.coin = " e")).length = 2 := by
  constructor
  · decide
  · decide

/-- Claim C4, amended: when every addr record key is already trimmed (the
upsert filter matches the trimmed key against the stored coin fields, so raw
whitespace keys can duplicate), the coin bucket is the last-occurrence upsert
of the addr records keyed on the coin field: at most one entry per key, the
last value winning. -/
theorem c4_addr_upsert_last_wins (l : List ProfileRecord) (b : Bool)
    (htrim : ∀ r ∈ l, r.type = "addr" → jsTrim r.key = r.key) :
    (profileRecordsToRecordOptions l b).coins.getD [] =
      keepLastBy CoinItem.coin (coinUpserts l) ∧
    ((profileRecordsToRecordOptions l b).coins.getD []).Pairwise
      (fun x y => x.coin ≠ y.coin) := by
  have hmain : (profileRecordsToRecordOptions l b).coins.getD [] =
      keepLastBy CoinItem.coin (coinUpserts l) := by
    unfold profileRecordsToRecordOptions
    rw [coins_foldl l htrim]
    show List.foldl _ ([] : List CoinItem) _ = _
    rw [foldl_upsertBy, List.filter_nil, List.nil_append]
  exact ⟨hmain, hmain ▸ keepLastBy_pairwise _ _⟩

/-- Claim C4 witness: two trim-fixed addr records sharing a key collapse to a
single coin entry carrying the later value. -/
theorem c4_witness :
    (profileRecordsToRecordOptions
      [⟨"e", "addr", ProfileRecordGroup.address, some "v1"⟩,
       ⟨"e", "addr", ProfileRecordGroup.address, some "v2"⟩] false).coins.getD [] =
      keepLastBy CoinItem.coin (coinUpserts
        [⟨"e", "addr", ProfileRecordGroup.address, some "v1"⟩,
         ⟨"e", "addr", ProfileRecordGroup.address, some "v2"⟩]) ∧
    ((profileRecordsToRecordOptions
      [⟨"e", "addr", ProfileRecordGroup.address, some "v1"⟩,
       ⟨"e", "addr", ProfileRecordGroup.address, some "v2"⟩] false).coins.getD
      []).Pairwise (fun x y => x.coin ≠ y.coin) :=
  c4_addr_upsert_last_wins _ false (by decide)

/-! ### The avatar entry of the text bucket (Claim C7) -/

/-- The avatar entries of the text bucket. -/
def avatarTexts (o : RecordOptions) : List TextItem :=
  (o.texts.getD []).filter (fun t => t.key = "avatar")

theorem filter_avatar_of_filter_ne (L : List TextItem) :
    (L.filter (fun t => t.key ≠ "avatar")).filter (fun t => t.key = "avatar") = [] := by
  rw [List.filter_filter]
  apply List.filter_eq_nil_iff.mpr
  intro a _
  by_cases h : a.key = "avatar" <;> simp [h]

theorem avatarTexts_step_skip (o : RecordOptions) (r : ProfileRecord)
    (h1 : r.key ≠ "avatar") (h2 : ¬(r.type = "text" ∧ jsTrim r.key = "avatar")) :
    avatarTexts (recordOptionsStep o r) = avatarTexts o := by
  by_cases h0 : r.key = ""
  · unfold recordOptionsStep
    rw [if_pos h0]
  · by_cases ht : r.type = "text"
    · have htrim : jsTrim r.key ≠ "avatar" := fun hc => h2 ⟨ht, hc⟩
      unfold avatarTexts
      simp only [recordOptionsStep, if_neg h0, if_neg h1, if_pos ht, Option.getD_some]
      rw [List.filter_append, filter_swap]
      have hone : List.filter (fun t : TextItem => t.key = "avatar")
          [⟨jsTrim r.key, jsTrim (r.value.getD "")⟩] = [] := by
        rw [List.filter_cons, List.filter_nil]
        simp [htrim]
      rw [hone, List.append_nil]
      apply List.filter_eq_self.mpr
      intro y hy
      have hk : y.key = "avatar" := by simpa using List.of_mem_filter hy
      have hne : y.key ≠ jsTrim r.key := by
        rw [hk]
        exact fun hc => htrim hc.symm
      simp [hne]
    · have htexts : (recordOptionsStep o r).texts = o.texts := by
        by_cases h2' : r.type = "addr"
        · simp [recordOptionsStep, h0, h1, ht, h2']
        · by_cases h3 : r.type = "contenthash"
          · simp [recordOptionsStep, h0, h1, ht, h2', h3]
          · by_cases h4 : r.type = "abi"
            · simp [recordOptionsStep, h0, h1, ht, h2', h3, h4]
            · simp [recordOptionsStep, h0, h1, ht, h2', h3, h4]
      unfold avatarTexts
      rw [htexts]

theorem avatarTexts_step_avatar (o : RecordOptions) (r : ProfileRecord)
    (h : r.key = "avatar") (hnil : avatarTexts o = []) :
    avatarTexts (recordOptionsStep o r) = [⟨"avatar", jsTrim (r.value.getD "")⟩] := by
  have h0 : ¬(r.key = "") := by rw [h]; decide
  have hfind : (o.texts.getD []).find? (fun t => t.key = "avatar") = none := by
    apply List.find?_eq_none.mpr
    intro x hx
    exact List.filter_eq_nil_iff.mp hnil x hx
  unfold avatarTexts
  simp only [recordOptionsStep, if_neg h0, if_pos h, hfind, Option.getD_some]
  rw [List.filter_append, filter_avatar_of_filter_ne]
  simp

theorem avatarTexts_foldl_skip (l : List ProfileRecord)
    (h : ∀ x ∈ l, x.key ≠ "avatar" ∧ ¬(x.type = "text" ∧ jsTrim x.key = "avatar")) :
    ∀ o : RecordOptions, avatarTexts (l.foldl recordOptionsStep o) = avatarTexts o := by
  induction l with
  | nil => intro o; rfl
  | cons r t ih =>
    intro o
    rw [List.foldl_cons]
    rw [ih (fun x hx => h x (List.mem_cons_of_mem _ hx))]
    exact avatarTexts_step_skip o r (h r (List.mem_cons_self r t)).1
      (h r (List.mem_cons_self r t)).2

/-! ### Claim C7 -/

/-- Claim C7 counterexample: a list with exactly one record of key avatar, but
containing a later text record whose raw key has a leading space and trims to
avatar: the bucket avatar entry carries the later record's value B, not the
avatar record's own value A. -/
theorem c7_counterexample :
    ((List.filter (fun x : ProfileRecord => x.key = "avatar")
      [⟨"avatar", "text", ProfileRecordGroup.media, some "A"⟩,
       ⟨" avatar", "text", ProfileRecordGroup.general, some "B"⟩]).length = 1) ∧
    ((profileRecordsToRecordOptions
      [⟨"avatar", "text", ProfileRecordGroup.media, some "A"⟩,
       ⟨" avatar", "text", ProfileRecordGroup.general, some "B"⟩] false).texts.getD
      []).filter (fun t => t.key = "avatar") = [⟨"avatar", "B"⟩] ∧
    ([⟨"avatar", "B"⟩] : List TextItem) ≠ [⟨"avatar", "A"⟩] := by
  refine ⟨?_, ?_, ?_⟩
  · decide
  · decide
  · decide

/-- Claim C7, amended: for a record list containing exactly one record with key
avatar, and in which no other record is a text record whose trimmed key equals
avatar, the texts bucket contains exactly one entry with key avatar, carrying
the trimmed value of that avatar record, regardless of its type and group. -/
theorem c7_single_avatar_entry (l₁ l₂ : List ProfileRecord) (r : ProfileRecord) (b : Bool)
    (hr : r.key = "avatar")
    (hothers : ∀ x ∈ l₁ ++ l₂,
      x.key ≠ "avatar" ∧ ¬(x.type = "text" ∧ jsTrim x.key = "avatar")) :
    ((profileRecordsToRecordOptions (l₁ ++ r :: l₂) b).texts.getD []).filter
      (fun t => t.key = "avatar") = [⟨"avatar", jsTrim (r.value.getD "")⟩] := by
  show avatarTexts _ = _
  unfold profileRecordsToRecordOptions
  rw [List.foldl_append, List.foldl_cons]
  rw [avatarTexts_foldl_skip l₂ (fun x hx => hothers x (List.mem_append_right _ hx))]
  apply avatarTexts_step_avatar _ r hr
  rw [avatarTexts_foldl_skip l₁ (fun x hx => hothers x (List.mem_append_left _ hx))]
  rfl

/-- Claim C7 witness: a mixed list with one avatar record among unrelated
records yields exactly the avatar entry with its trimmed value. -/
theorem c7_witness :
    ((profileRecordsToRecordOptions
      [⟨"b", "text", ProfileRecordGroup.general, some "x"⟩,
       ⟨"avatar", "addr", ProfileRecordGroup.general, some " A "⟩,
       ⟨"c", "addr", ProfileRecordGroup.address, some "y"⟩] false).texts.getD
      []).filter (fun t => t.key = "avatar") = [⟨"avatar", "A"⟩] :=
  c7_single_avatar_entry
    [⟨"b", "text", ProfileRecordGroup.general, some "x"⟩]
    [⟨"c", "addr", ProfileRecordGroup.address, some "y"⟩]
    ⟨"avatar", "addr", ProfileRecordGroup.general, some " A "⟩ false rfl (by decide)

/-! ### Claim C5 -/

theorem editorForm_foldl (R : List ProfileRecord)
    (hav : ∀ r ∈ R, ¬(r.key = "avatar" ∧ r.group = ProfileRecordGroup.media)) :
    ∀ acc : ProfileEditorForm,
      R.foldl editorFormStep acc =
        ⟨acc.avatar, acc.records ++
          R.map (fun r => { r with value := some (r.value.getD "") })⟩ := by
  induction R with
  | nil => intro acc; simp
  | cons r t ih =>
    intro acc
    rw [List.foldl_cons]
    have hstep : editorFormStep acc r =
        { acc with records := acc.records ++ [{ r with value := some (r.value.getD "") }] } := by
      unfold editorFormStep
      rw [if_neg (hav r (List.mem_cons_self r t))]
    rw [hstep, ih (fun x hx => hav x (List.mem_cons_of_mem _ hx))]
    simp

/-- Claim C5: for a record list with no duplicate key-group pairs, no record
with key avatar and group media, and every value a defined string, converting
to the editor form and back restores the list exactly (and hence up to
ordering). -/
theorem c5_roundtrip (R : List ProfileRecord)
    (hdup : R.Pairwise (fun a b => ¬(a.key = b.key ∧ a.group = b.group)))
    (hav : ∀ r ∈ R, ¬(r.key = "avatar" ∧ r.group = ProfileRecordGroup.media))
    (hval : ∀ r ∈ R, r.value.isSome) :
    profileEditorFormToProfileRecords (profileRecordsToProfileEditorForm R) = R := by
  unfold profileRecordsToProfileEditorForm
  rw [editorForm_foldl R hav ⟨"", []⟩]
  unfold profileEditorFormToProfileRecords
  have hnorm : ∀ r ∈ R, ({ r with value := some (r.value.getD "") } : ProfileRecord) = id r := by
    intro r hr
    rcases Option.isSome_iff_exists.mp (hval r hr) with ⟨s, hs⟩
    cases r
    simp only [Option.mem_def] at hs ⊢
    simp [hs]
  show List.nil ++ R.map _ ++ _ = R
  rw [List.map_congr_left hnorm, List.map_id]
  simp

/-- Claim C5 witness: a concrete list round-trips unchanged. -/
theorem c5_witness :
    profileEditorFormToProfileRecords (profileRecordsToProfileEditorForm
      [⟨"a", "text", ProfileRecordGroup.general, some "y"⟩,
       ⟨"e", "addr", ProfileRecordGroup.address, some "z"⟩]) =
      [⟨"a", "text", ProfileRecordGroup.general, some "y"⟩,
       ⟨"e", "addr", ProfileRecordGroup.address, some "z"⟩] :=
  c5_roundtrip _ (by decide) (by decide) (by decide)

/-! ### Claim C6 -/

theorem filter_rank_orderedInsert (e : Externals) (n : Nat) (a : ProfileRecord)
    (l : List ProfileRecord) :
    (List.orderedInsert (sortLE e) a l).filter (fun x => recordRankValue e x = n) =
      if recordRankValue e a = n then
        a :: l.filter (fun x => recordRankValue e x = n)
      else l.filter (fun x => recordRankValue e x = n) := by
  induction l with
  | nil =>
    rw [List.orderedInsert, List.filter_cons, List.filter_nil]
    by_cases ha : recordRankValue e a = n <;> simp [ha]
  | cons b t ih =>
    rw [List.orderedInsert]
    by_cases hab : sortLE e a b
    · rw [if_pos hab, List.filter_cons]
      by_cases ha : recordRankValue e a = n <;> simp [ha]
    · rw [if_neg hab, List.filter_cons, ih]
      have hlt : recordRankValue e b < recordRankValue e a := by
        rw [sortLE_iff] at hab
        omega
      by_cases ha : recordRankValue e a = n
      · have hb : ¬(recordRankValue e b = n) := by omega
        simp [ha, hb]
      · by_cases hb : recordRankValue e b = n <;> simp [ha, hb]

theorem filter_rank_insertionSort (e : Externals) (n : Nat) (l : List ProfileRecord) :
    (l.insertionSort (sortLE e)).filter (fun x => recordRankValue e x = n) =
      l.filter (fun x => recordRankValue e x = n) := by
  induction l with
  | nil => rfl
  | cons a t ih =>
    rw [List.insertionSort, filter_rank_orderedInsert, ih, List.filter_cons]
    by_cases ha : recordRankValue e a = n <;> simp [ha]

/-- Claim C6: the Classifier returns a permutation of the concatenation of the
text-derived, address-derived, website-derived and abi-derived records, sorted
by the rank drawn from the priority table at the group and lowercased key with
the per-group fallback (media 1, general 199, social 299, address 399, website
499, other 599, custom 999), and records of equal rank keep their original
relative order (stability). -/
theorem c6_classifier_sorted_stable (e : Externals) (p : Option Profile) :
    (profileToProfileRecords e p).Perm (profileRecordsUnsorted e p) ∧
    (profileToProfileRecords e p).Sorted
      (fun a b => recordRankValue e a ≤ recordRankValue e b) ∧
    ∀ n : Nat,
      (profileToProfileRecords e p).filter (fun x => recordRankValue e x = n) =
        (profileRecordsUnsorted e p).filter (fun x => recordRankValue e x = n) := by
  refine ⟨List.perm_insertionSort _ _, ?_, fun n => filter_rank_insertionSort e n _⟩
  have hs := List.sorted_insertionSort (sortLE e) (profileRecordsUnsorted e p)
  exact hs.imp (fun hab => (sortLE_iff e _ _).mp hab)

end ENS
